import Mathlib

/-!
Shallow embedding of the "valid" correlation-with-down-sampling MEX core of
the mt_model_HS1998 repository (`svalidconvolve.c` / `validCorrDn3.c`) and of
two auxiliary scalar utilities (`destructiveMatrixWriteAtIndices.c`,
`pointOp.c`), together with theorems checking the specification's claims
against the embedded code.

Modelling conventions:
* IEEE-754 double values are modelled as exact rationals (`ℚ`); the claims
  settled here concern indexing, iteration order and shape arithmetic, not
  rounding, and with exact arithmetic the code's left-to-right accumulation
  agrees with the mathematical sum.
* Flat buffers are Lean lists; a C read `p[i]` becomes `List.getD l i 0`
  (all reads relevant to the claims are in bounds), a C write becomes
  `List.set`, which is length-preserving like a store to a fixed buffer.
* `mwSize` values are naturals, with wrap-around written out explicitly as
  `% 2 ^ 64` where the C code can underflow or overflow; C `int` arithmetic
  on dimensions is modelled on `ℤ` with truncating division (`Int.tdiv`),
  matching C99 `/` semantics.
-/

/-- Truncation toward zero of a rational number: the value a C cast of a
`double` to an integer type produces (when in range). -/
def ratTrunc (q : ℚ) : Int := q.num.tdiv (q.den : Int)

/-- Column-major linear index `i0 + i1*d0 + i2*d0*d1`, the index expression
used for the image, filter and result buffers in `svalidconvolve.c`
(lines 89, 90 and 97). -/
def linIdx (i0 i1 i2 d0 d1 : Nat) : Nat := i0 + i1 * d0 + i2 * d0 * d1

/-- The per-axis output extent `(idim - fdim) / step + 1` as computed inside
`valid_filter` (svalidconvolve.c lines 64-66) with C `int` arithmetic:
subtraction on ℤ and truncating division. -/
def intResDim (idim fdim step : Nat) : Int :=
  ((idim : Int) - (fdim : Int)).tdiv (step : Int) + 1

/-- The inner triple loop of `valid_filter` (svalidconvolve.c lines 78-94):
`ft` outermost, then `fy`, then `fx` innermost, accumulating
`sum += image[img_x + img_y*x_idim + img_t*x_idim*y_idim] * filt[fx + fy*x_fdim + ft*x_fdim*y_fdim]`
left-to-right starting from `0.0`, where `img_x = x*x_step + fx` etc. -/
def innerSum (image : List ℚ) (x_idim y_idim : Nat) (filt : List ℚ)
    (x_fdim y_fdim t_fdim : Nat) (x_step y_step t_step : Nat) (x y t : Nat) : ℚ :=
  (List.range t_fdim).foldl (fun s ft =>
    (List.range y_fdim).foldl (fun s fy =>
      (List.range x_fdim).foldl (fun s fx =>
        s + image.getD (linIdx (x * x_step + fx) (y * y_step + fy) (t * t_step + ft)
              x_idim y_idim) 0
          * filt.getD (linIdx fx fy ft x_fdim y_fdim) 0) s) s) 0

/-- The sequence of stores performed by the outer three loops of
`valid_filter` (svalidconvolve.c lines 69-99): `t` outermost, then `y`,
then `x` innermost; each iteration stores the accumulated sum at
`result[x + y*x_res_dim + t*x_res_dim*y_res_dim]`. -/
def writeList (image : List ℚ) (x_idim y_idim t_idim : Nat) (filt : List ℚ)
    (x_fdim y_fdim t_fdim : Nat) (x_step y_step t_step : Nat) : List (Nat × ℚ) :=
  let x_res_dim := (intResDim x_idim x_fdim x_step).toNat
  let y_res_dim := (intResDim y_idim y_fdim y_step).toNat
  let t_res_dim := (intResDim t_idim t_fdim t_step).toNat
  (List.range t_res_dim).flatMap fun t =>
    (List.range y_res_dim).flatMap fun y =>
      (List.range x_res_dim).map fun x =>
        (linIdx x y t x_res_dim y_res_dim,
         innerSum image x_idim y_idim filt x_fdim y_fdim t_fdim x_step y_step t_step x y t)

/-- Function `valid_filter` of svalidconvolve.c (lines 58-103): performs every store of
the outer loop nest, in loop order, on the caller-supplied result buffer.
The C `int` step arguments are taken as naturals: every claim about this
routine presupposes `stride ≥ 1`, and a zero or negative step makes the C
code divide by zero or read out of bounds (undefined behavior). -/
def valid_filter (image : List ℚ) (x_idim y_idim t_idim : Nat) (filt : List ℚ)
    (x_fdim y_fdim t_fdim : Nat) (x_step y_step t_step : Nat) (result : List ℚ) : List ℚ :=
  (writeList image x_idim y_idim t_idim filt x_fdim y_fdim t_fdim x_step y_step t_step).foldl
    (fun r iv => r.set iv.1 iv.2) result

/-- Four MATLAB array extents, as carried in the `mwSize dims[4]` arrays of
validCorrDn3.c. -/
structure Dims4 where
  d0 : Nat
  d1 : Nat
  d2 : Nat
  d3 : Nat
deriving DecidableEq

/-- The three `int step[3]` down-sampling steps of validCorrDn3.c. -/
structure Steps3 where
  s0 : Int
  s1 : Int
  s2 : Int
deriving DecidableEq

/-- C unsigned 64-bit (`mwSize`) subtraction: wraps modulo `2^64` when the
subtrahend exceeds the minuend. Arguments are assumed `< 2^64`. -/
def mwSub (a b : Nat) : Nat := (((a : Int) - (b : Int)) % (2 ^ 64 : Int)).toNat

/-- One axis of `calculateOutputDimensions` (validCorrDn3.c lines 99-101):
`(image_dims[i] - filter_dims[i]) / step[i] + 1` evaluated in `mwSize`
arithmetic (the `int` step is converted to unsigned by the usual C
conversions, and the `+ 1` result is stored into an `mwSize`). If the
converted step is zero the C division is undefined behavior; the model's
`Nat` division then returns 0, an arbitrary total value. -/
def calcOutDim (idim fdim : Nat) (step : Int) : Nat :=
  (mwSub idim fdim / ((step % (2 ^ 64 : Int)).toNat) + 1) % 2 ^ 64

/-- Function `calculateOutputDimensions` of validCorrDn3.c (lines 98-103): the three
convolved axes get `(image - filter)/step + 1`, the fourth (pass-through)
axis copies the input's fourth extent. -/
def calculateOutputDimensions (image_dims filter_dims : Dims4) (step : Steps3) : Dims4 :=
  { d0 := calcOutDim image_dims.d0 filter_dims.d0 step.s0
    d1 := calcOutDim image_dims.d1 filter_dims.d1 step.s1
    d2 := calcOutDim image_dims.d2 filter_dims.d2 step.s2
    d3 := image_dims.d3 }

/-- A MATLAB `mxArray` argument, reduced to the attributes validCorrDn3.c
inspects: class/sparsity/complexity flags, the dimension vector, and the
flat double data. -/
structure MxArray where
  isDouble : Bool
  isSparse : Bool
  isComplex : Bool
  dims : List Nat
  data : List ℚ
deriving DecidableEq, Inhabited

/-- The dimension-filling loop of `validateInputs` (validCorrDn3.c lines
72-74 and 82-84): `dims[4]` starts as `{1,1,1,1}` and the first
`min(ndims, 4)` entries are overwritten from the array's dimension vector. -/
def fillDims (dims : List Nat) : Dims4 :=
  { d0 := dims.getD 0 1, d1 := dims.getD 1 1, d2 := dims.getD 2 1, d3 := dims.getD 3 1 }

/-- Function `validateInputs` of validCorrDn3.c (lines 60-96). It checks the argument
count, that image and filter are non-sparse real double arrays, and that a
step argument (when present) is a double array with exactly 3 elements whose
entries are truncated to `int`. It performs no check that the filter fits
inside the image and no check that the steps are positive. -/
def validateInputs (args : List MxArray) : Except String (Dims4 × Dims4 × Steps3) :=
  match args with
  | a0 :: a1 :: rest =>
    if ¬a0.isDouble ∨ a0.isSparse ∨ a0.isComplex then
      .error "MATLAB:validCorrDn3:invalidImage"
    else if ¬a1.isDouble ∨ a1.isSparse ∨ a1.isComplex then
      .error "MATLAB:validCorrDn3:invalidFilter"
    else
      match rest with
      | [] => .ok (fillDims a0.dims, fillDims a1.dims, ⟨1, 1, 1⟩)
      | a2 :: _ =>
        if ¬a2.isDouble ∨ a2.data.length ≠ 3 then
          .error "MATLAB:validCorrDn3:invalidStep"
        else
          .ok (fillDims a0.dims, fillDims a1.dims,
               ⟨ratTrunc (a2.data.getD 0 0), ratTrunc (a2.data.getD 1 0),
                ratTrunc (a2.data.getD 2 0)⟩)
  | _ => .error "MATLAB:validCorrDn3:invalidNumInputs"

/-- Function `performValidCorrelation` of validCorrDn3.c (lines 105-109): a single
call of `valid_filter` on the first three axes; the fourth (pass-through)
axis of the buffers is never visited. The `int` steps are taken through
`Int.toNat` (all claims about this path use positive steps). -/
def performValidCorrelation (image filt result : List ℚ) (image_dims filter_dims : Dims4)
    (step : Steps3) : List ℚ :=
  valid_filter image image_dims.d0 image_dims.d1 image_dims.d2
    filt filter_dims.d0 filter_dims.d1 filter_dims.d2
    step.s0.toNat step.s1.toNat step.s2.toNat result

/-- The `mexFunction` pipeline of validCorrDn3.c (lines 43-58) after argument
validation succeeds: compute the output dimensions, allocate the output with
`mxCreateNumericArray` (which zero-fills all
`d0*d1*d2*d3` doubles), and run `performValidCorrelation` on it. -/
def validCorrDn3_mex (args : List MxArray) : Except String (List ℚ) :=
  match validateInputs args with
  | .error e => .error e
  | .ok (image_dims, filter_dims, step) =>
    let result_dims := calculateOutputDimensions image_dims filter_dims step
    let result := List.replicate (result_dims.d0 * result_dims.d1 * result_dims.d2 *
      result_dims.d3) (0 : ℚ)
    .ok (performValidCorrelation ((args.getD 0 default).data) ((args.getD 1 default).data)
      result image_dims filter_dims step)

/-- The core of `destructiveMatrixWriteAtIndices.c` (lines 79-104), after the
host-type marshaling: the start scalar is truncated to an unsigned integer
(line 88), the bounds check of lines 91-95 aborts before any write, and
otherwise the loop of lines 98-101 overwrites
`mtx[startIndex .. startIndex+numValues-1]` with `newValues` in order. -/
def destructiveMatrixWriteAtIndices (mtx newValues : List ℚ) (startScalar : ℚ) :
    Except String (List ℚ) :=
  let startIndex := (ratTrunc startScalar).toNat
  let numValues := newValues.length
  if startIndex ≥ mtx.length ∨ startIndex + numValues > mtx.length then
    .error "Starting index and number of values exceed matrix bounds."
  else
    .ok ((List.range numValues).foldl
      (fun m i => m.set (startIndex + i) (newValues.getD i 0)) mtx)

/-- Function `internal_pointop` of pointOp.c (lines 116-158). With `increment > 0`
each pixel takes the interpolated lookup value at truncated position
`(im[i] - origin) / increment` (the `index < 0` clamp in the source is dead
code, since `index` is an unsigned `size_t`); otherwise (`increment <= 0`)
every pixel takes `*lut`, the first lookup-table entry. Out-of-range lookup
indices would read out of bounds in C (undefined behavior); the model reads
them as the default `0`. -/
def internal_pointop (im lut : List ℚ) (origin increment : ℚ) : List ℚ :=
  if 0 < increment then
    im.map fun v =>
      let pos := (v - origin) / increment
      let index := (ratTrunc pos).toNat
      lut.getD index 0 + (lut.getD (index + 1) 0 - lut.getD index 0) * (pos - (index : ℚ))
  else
    im.map fun _ => lut.getD 0 0

/-! ### Helper lemmas about the embedded operations -/

theorem intResDim_toNat (idim fdim step : Nat) (hf : fdim ≤ idim) :
    (intResDim idim fdim step).toNat = (idim - fdim) / step + 1 := by
  have h1 : intResDim idim fdim step = (((idim - fdim) / step : Nat) : Int) + 1 := by
    unfold intResDim
    rw [← Int.ofNat_sub hf]
    rfl
  rw [h1]
  generalize (idim - fdim) / step = k
  omega

theorem applyWrites_length (l : List (Nat × ℚ)) (r : List ℚ) :
    (l.foldl (fun r iv => r.set iv.1 iv.2) r).length = r.length := by
  induction l generalizing r with
  | nil => rfl
  | cons a l ih => simpa using ih (r.set a.1 a.2)

theorem applyWrites_getElem_not_mem (l : List (Nat × ℚ)) (r : List ℚ) (p : Nat)
    (h : p ∉ l.map Prod.fst) :
    (l.foldl (fun r iv => r.set iv.1 iv.2) r)[p]? = r[p]? := by
  induction l generalizing r with
  | nil => rfl
  | cons a l ih =>
    simp only [List.map_cons, List.mem_cons, not_or] at h
    rw [List.foldl_cons, ih _ h.2, List.getElem?_set_ne (Ne.symm h.1)]

theorem applyWrites_getElem_mem (l : List (Nat × ℚ)) (r : List ℚ) (p : Nat) (v : ℚ)
    (hnd : (l.map Prod.fst).Nodup) (hm : (p, v) ∈ l) (hp : p < r.length) :
    (l.foldl (fun r iv => r.set iv.1 iv.2) r)[p]? = some v := by
  induction l generalizing r with
  | nil => cases hm
  | cons a l ih =>
    rw [List.map_cons, List.nodup_cons] at hnd
    rcases List.mem_cons.mp hm with h | h
    · subst h
      rw [List.foldl_cons, applyWrites_getElem_not_mem _ _ _ (by simpa using hnd.1)]
      exact List.getElem?_set_self hp
    · rw [List.foldl_cons]
      exact ih _ hnd.2 h (by simpa using hp)

theorem foldl_add_range (f : Nat → ℚ) : ∀ (n : Nat) (a : ℚ),
    (List.range n).foldl (fun s i => s + f i) a = a + ∑ i ∈ Finset.range n, f i := by
  intro n
  induction n with
  | zero => simp
  | succ n ih =>
    intro a
    rw [List.range_succ, List.foldl_append, ih, Finset.sum_range_succ]
    simp [add_assoc]

theorem innerSum_eq_sum (image : List ℚ) (xi yi : Nat) (filt : List ℚ)
    (xf yf tf xs ys ts x y t : Nat) :
    innerSum image xi yi filt xf yf tf xs ys ts x y t =
      ∑ ft ∈ Finset.range tf, ∑ fy ∈ Finset.range yf, ∑ fx ∈ Finset.range xf,
        image.getD (linIdx (x * xs + fx) (y * ys + fy) (t * ts + ft) xi yi) 0 *
          filt.getD (linIdx fx fy ft xf yf) 0 := by
  unfold innerSum
  simp only [foldl_add_range]
  simp

theorem linIdx_lt (x y t d0 d1 d2 : Nat) (hx : x < d0) (hy : y < d1) (ht : t < d2) :
    linIdx x y t d0 d1 < d0 * d1 * d2 := by
  unfold linIdx
  have h1 : x + y * d0 + 1 ≤ (y + 1) * d0 := by
    calc x + y * d0 + 1 = y * d0 + (x + 1) := by ring
    _ ≤ y * d0 + d0 := by omega
    _ = (y + 1) * d0 := by ring
  have h2 : (y + 1) * d0 ≤ d1 * d0 := Nat.mul_le_mul_right _ (by omega)
  have h3 : x + y * d0 + t * d0 * d1 + 1 ≤ d1 * d0 + t * (d0 * d1) := by
    have := h1.trans h2
    calc x + y * d0 + t * d0 * d1 + 1 = (x + y * d0 + 1) + t * (d0 * d1) := by ring
    _ ≤ d1 * d0 + t * (d0 * d1) := by omega
  have h4 : d1 * d0 + t * (d0 * d1) = (t + 1) * (d0 * d1) := by ring
  have h5 : (t + 1) * (d0 * d1) ≤ d2 * (d0 * d1) := Nat.mul_le_mul_right _ (by omega)
  calc x + y * d0 + t * d0 * d1 < d1 * d0 + t * (d0 * d1) := by omega
  _ ≤ d2 * (d0 * d1) := h4 ▸ h5
  _ = d0 * d1 * d2 := by ring

theorem addMulCancel {a b a' b' n : Nat} (ha : a < n) (ha' : a' < n)
    (hab : a + n * b = a' + n * b') : a = a' ∧ b = b' := by
  have h1 : a = a' := by
    have hmod := congrArg (· % n) hab
    simpa [Nat.add_mul_mod_self_left, Nat.mod_eq_of_lt ha, Nat.mod_eq_of_lt ha'] using hmod
  subst h1
  have h2 := Nat.add_left_cancel hab
  exact ⟨rfl, Nat.eq_of_mul_eq_mul_left (by omega) h2⟩

theorem linIdx_inj (d0 d1 : Nat) {x y t x' y' t' : Nat}
    (hx : x < d0) (hx' : x' < d0) (hy : y < d1) (hy' : y' < d1)
    (h : linIdx x y t d0 d1 = linIdx x' y' t' d0 d1) :
    x = x' ∧ y = y' ∧ t = t' := by
  unfold linIdx at h
  have l1 : ∀ a b c : Nat, a + b * d0 + c * d0 * d1 = a + d0 * (b + d1 * c) := by
    intro a b c; ring
  rw [l1, l1] at h
  obtain ⟨e1, h2⟩ := addMulCancel hx hx' h
  obtain ⟨e2, e3⟩ := addMulCancel hy hy' h2
  exact ⟨e1, e2, e3⟩

theorem writeList_keys (image : List ℚ) (x_idim y_idim t_idim : Nat) (filt : List ℚ)
    (x_fdim y_fdim t_fdim : Nat) (x_step y_step t_step : Nat) :
    (writeList image x_idim y_idim t_idim filt x_fdim y_fdim t_fdim
        x_step y_step t_step).map Prod.fst =
      (List.range (intResDim t_idim t_fdim t_step).toNat).flatMap fun t =>
        (List.range (intResDim y_idim y_fdim y_step).toNat).flatMap fun y =>
          (List.range (intResDim x_idim x_fdim x_step).toNat).map fun x =>
            linIdx x y t (intResDim x_idim x_fdim x_step).toNat
              (intResDim y_idim y_fdim y_step).toNat := by
  unfold writeList
  simp [List.map_flatMap, List.map_map, Function.comp_def]

theorem linIdx_keys_nodup (d0 d1 d2 : Nat) :
    ((List.range d2).flatMap fun t =>
      (List.range d1).flatMap fun y =>
        (List.range d0).map fun x => linIdx x y t d0 d1).Nodup := by
  rw [List.nodup_flatMap]
  constructor
  · intro t _
    rw [List.nodup_flatMap]
    constructor
    · intro y hy
      refine List.Nodup.map_on ?_ (List.nodup_range _)
      intro x hx x' hx' hxx
      exact (linIdx_inj d0 d1 (List.mem_range.mp hx) (List.mem_range.mp hx')
        (List.mem_range.mp hy) (List.mem_range.mp hy) hxx).1
    · refine List.Nodup.pairwise_of_set_pairwise (List.nodup_range _) ?_
      intro y hy y' hy' hne
      intro k hk hk'
      simp only [List.mem_map, List.mem_range] at hk hk'
      obtain ⟨x, hx, he⟩ := hk
      obtain ⟨x', hx', he'⟩ := hk'
      exact hne (linIdx_inj d0 d1 hx hx' (List.mem_range.mp hy) (List.mem_range.mp hy')
        (he.trans he'.symm)).2.1
  · refine List.Nodup.pairwise_of_set_pairwise (List.nodup_range _) ?_
    intro t ht t' ht' hne
    intro k hk hk'
    simp only [List.mem_flatMap, List.mem_map, List.mem_range] at hk hk'
    obtain ⟨y, hy, x, hx, he⟩ := hk
    obtain ⟨y', hy', x', hx', he'⟩ := hk'
    exact hne (linIdx_inj d0 d1 hx hx' hy hy' (he.trans he'.symm)).2.2

theorem writeList_mem (image : List ℚ) (x_idim y_idim t_idim : Nat) (filt : List ℚ)
    (x_fdim y_fdim t_fdim x_step y_step t_step x y t : Nat)
    (hx : x < (intResDim x_idim x_fdim x_step).toNat)
    (hy : y < (intResDim y_idim y_fdim y_step).toNat)
    (ht : t < (intResDim t_idim t_fdim t_step).toNat) :
    (linIdx x y t (intResDim x_idim x_fdim x_step).toNat (intResDim y_idim y_fdim y_step).toNat,
      innerSum image x_idim y_idim filt x_fdim y_fdim t_fdim x_step y_step t_step x y t) ∈
      writeList image x_idim y_idim t_idim filt x_fdim y_fdim t_fdim x_step y_step t_step := by
  unfold writeList
  simp only [List.mem_flatMap, List.mem_map, List.mem_range]
  exact ⟨t, ht, y, hy, x, hx, rfl⟩

/-- Master lemma: under the validation preconditions, the buffer produced by
`valid_filter` holds, at the column-major position of each output coordinate
`(x, y, t)`, the full windowed inner product of image and filter. -/
theorem valid_filter_spec (image : List ℚ) (x_idim y_idim t_idim : Nat) (filt : List ℚ)
    (x_fdim y_fdim t_fdim x_step y_step t_step : Nat) (result : List ℚ) (x y t : Nat)
    (hfx : x_fdim ≤ x_idim) (hfy : y_fdim ≤ y_idim) (hft : t_fdim ≤ t_idim)
    (hsx : 1 ≤ x_step) (hsy : 1 ≤ y_step) (hst : 1 ≤ t_step)
    (hx : x < (x_idim - x_fdim) / x_step + 1)
    (hy : y < (y_idim - y_fdim) / y_step + 1)
    (ht : t < (t_idim - t_fdim) / t_step + 1)
    (hlen : ((x_idim - x_fdim) / x_step + 1) * ((y_idim - y_fdim) / y_step + 1) *
      ((t_idim - t_fdim) / t_step + 1) ≤ result.length) :
    (valid_filter image x_idim y_idim t_idim filt x_fdim y_fdim t_fdim
        x_step y_step t_step result)[linIdx x y t ((x_idim - x_fdim) / x_step + 1)
        ((y_idim - y_fdim) / y_step + 1)]? =
      some (∑ ft ∈ Finset.range t_fdim, ∑ fy ∈ Finset.range y_fdim, ∑ fx ∈ Finset.range x_fdim,
        image.getD (linIdx (x * x_step + fx) (y * y_step + fy) (t * t_step + ft) x_idim y_idim) 0 *
          filt.getD (linIdx fx fy ft x_fdim y_fdim) 0) := by
  have ex : (intResDim x_idim x_fdim x_step).toNat = (x_idim - x_fdim) / x_step + 1 :=
    intResDim_toNat _ _ _ hfx
  have ey : (intResDim y_idim y_fdim y_step).toNat = (y_idim - y_fdim) / y_step + 1 :=
    intResDim_toNat _ _ _ hfy
  have et : (intResDim t_idim t_fdim t_step).toNat = (t_idim - t_fdim) / t_step + 1 :=
    intResDim_toNat _ _ _ hft
  rw [← innerSum_eq_sum]
  unfold valid_filter
  refine applyWrites_getElem_mem _ _ _ _ ?_ ?_ ?_
  · rw [writeList_keys]
    exact linIdx_keys_nodup _ _ _
  · have hmem := writeList_mem image x_idim y_idim t_idim filt x_fdim y_fdim t_fdim
      x_step y_step t_step x y t (by rw [ex]; exact hx) (by rw [ey]; exact hy)
      (by rw [et]; exact ht)
    rw [ex, ey] at hmem
    exact hmem
  · exact lt_of_lt_of_le (linIdx_lt _ _ _ _ _ _ hx hy ht) hlen

/-! ### Claim theorems -/

/-- C1: for every input array, kernel array and stride vector satisfying the
validation preconditions (`kernel_dims[i] ≤ in_dims[i]`, `stride[i] ≥ 1` on
every convolved axis) and no pass-through axis, `valid_filter` writes to
every output coordinate `(x, y, t)` — at its column-major linear position in
the output buffer — the value `Σ_offset in[window + offset] * kernel[offset]`
with `window[i] = coord[i] * stride[i]`, the kernel applied without reversal,
both arrays linearized column-major; the code's left-to-right accumulation in
loop order (first axis innermost, last convolved axis outermost) equals this
sum in the exact-arithmetic model. -/
theorem C1_correlate_windowed_inner_product (image : List ℚ) (x_idim y_idim t_idim : Nat)
    (filt : List ℚ) (x_fdim y_fdim t_fdim x_step y_step t_step : Nat) (result : List ℚ)
    (x y t : Nat)
    (hfx : x_fdim ≤ x_idim) (hfy : y_fdim ≤ y_idim) (hft : t_fdim ≤ t_idim)
    (hsx : 1 ≤ x_step) (hsy : 1 ≤ y_step) (hst : 1 ≤ t_step)
    (hx : x < (x_idim - x_fdim) / x_step + 1)
    (hy : y < (y_idim - y_fdim) / y_step + 1)
    (ht : t < (t_idim - t_fdim) / t_step + 1)
    (hlen : ((x_idim - x_fdim) / x_step + 1) * ((y_idim - y_fdim) / y_step + 1) *
      ((t_idim - t_fdim) / t_step + 1) ≤ result.length) :
    (valid_filter image x_idim y_idim t_idim filt x_fdim y_fdim t_fdim
        x_step y_step t_step result)[linIdx x y t ((x_idim - x_fdim) / x_step + 1)
        ((y_idim - y_fdim) / y_step + 1)]? =
      some (∑ ft ∈ Finset.range t_fdim, ∑ fy ∈ Finset.range y_fdim, ∑ fx ∈ Finset.range x_fdim,
        image.getD (linIdx (x * x_step + fx) (y * y_step + fy) (t * t_step + ft) x_idim y_idim) 0 *
          filt.getD (linIdx fx fy ft x_fdim y_fdim) 0) :=
  valid_filter_spec image x_idim y_idim t_idim filt x_fdim y_fdim t_fdim x_step y_step t_step
    result x y t hfx hfy hft hsx hsy hst hx hy ht hlen

/-- Witness for C1 at a concrete input: the 3×3 image `[1..9]`, a 2×2
all-ones kernel and stride 1, at output coordinate `(1, 1, 0)`. -/
theorem C1_correlate_windowed_inner_product_witness :
    (valid_filter [1, 2, 3, 4, 5, 6, 7, 8, 9] 3 3 1 [1, 1, 1, 1] 2 2 1 1 1 1
        (List.replicate 4 0))[linIdx 1 1 0 ((3 - 2) / 1 + 1) ((3 - 2) / 1 + 1)]? =
      some (∑ ft ∈ Finset.range 1, ∑ fy ∈ Finset.range 2, ∑ fx ∈ Finset.range 2,
        ([1, 2, 3, 4, 5, 6, 7, 8, 9] : List ℚ).getD
          (linIdx (1 * 1 + fx) (1 * 1 + fy) (0 * 1 + ft) 3 3) 0 *
          ([1, 1, 1, 1] : List ℚ).getD (linIdx fx fy ft 2 2) 0) :=
  C1_correlate_windowed_inner_product [1, 2, 3, 4, 5, 6, 7, 8, 9] 3 3 1 [1, 1, 1, 1] 2 2 1
    1 1 1 (List.replicate 4 0) 1 1 0 (by decide) (by decide) (by decide) (by decide)
    (by decide) (by decide) (by decide) (by decide) (by decide) (by decide)

/-- C7: a kernel of extent 1 on every convolved axis whose single element is
`1.0`, with stride 1 everywhere, reproduces the input: the resolved output
extents equal the input extents, and every output element equals the
corresponding input element. -/
theorem C7_identity_kernel (image : List ℚ) (x_idim y_idim t_idim : Nat) (result : List ℚ)
    (hx1 : 1 ≤ x_idim) (hy1 : 1 ≤ y_idim) (ht1 : 1 ≤ t_idim)
    (himg : image.length = x_idim * y_idim * t_idim)
    (hres : x_idim * y_idim * t_idim ≤ result.length) :
    (intResDim x_idim 1 1).toNat = x_idim ∧
    (intResDim y_idim 1 1).toNat = y_idim ∧
    (intResDim t_idim 1 1).toNat = t_idim ∧
    ∀ x < x_idim, ∀ y < y_idim, ∀ t < t_idim,
      (valid_filter image x_idim y_idim t_idim [1] 1 1 1 1 1 1
        result)[linIdx x y t x_idim y_idim]? = image[linIdx x y t x_idim y_idim]? := by
  have ex : (x_idim - 1) / 1 + 1 = x_idim := by omega
  have ey : (y_idim - 1) / 1 + 1 = y_idim := by omega
  have et : (t_idim - 1) / 1 + 1 = t_idim := by omega
  refine ⟨by rw [intResDim_toNat _ _ _ hx1, ex], by rw [intResDim_toNat _ _ _ hy1, ey],
    by rw [intResDim_toNat _ _ _ ht1, et], ?_⟩
  intro x hx y hy t ht
  have h := valid_filter_spec image x_idim y_idim t_idim [1] 1 1 1 1 1 1 result x y t
    hx1 hy1 ht1 (le_refl 1) (le_refl 1) (le_refl 1)
    (by rw [ex]; exact hx) (by rw [ey]; exact hy) (by rw [et]; exact ht)
    (by rw [ex, ey, et]; exact hres)
  rw [ex, ey] at h
  rw [h]
  simp only [Finset.sum_range_one]
  have hidx : linIdx x y t x_idim y_idim < image.length := by
    rw [himg]; exact linIdx_lt _ _ _ _ _ _ hx hy ht
  rw [List.getElem?_eq_getElem hidx]
  have : ([1] : List ℚ).getD (linIdx 0 0 0 1 1) 0 = 1 := rfl
  simp only [Nat.mul_one, Nat.add_zero, this, mul_one]
  rw [List.getD_eq_getElem?_getD, List.getElem?_eq_getElem hidx]
  rfl

/-- Witness for C7 at a concrete input: a 2×2×1 image reproduced by the
identity kernel; instantiating the universally quantified conclusion at
coordinate `(1, 0, 0)` gives the second element back. -/
theorem C7_identity_kernel_witness :
    (valid_filter [3, 5, 7, 11] 2 2 1 [1] 1 1 1 1 1 1
      (List.replicate 4 0))[linIdx 1 0 0 2 2]? = ([3, 5, 7, 11] : List ℚ)[linIdx 1 0 0 2 2]? :=
  (C7_identity_kernel [3, 5, 7, 11] 2 2 1 (List.replicate 4 0) (by decide) (by decide)
    (by decide) (by decide) (by decide)).2.2.2 1 (by decide) 0 (by decide) 0 (by decide)

theorem calcOutDim_eq (idim fdim : Nat) (s : Int) (h1 : 1 ≤ fdim) (h2 : fdim ≤ idim)
    (h3 : idim < 2 ^ 64) (hs : 1 ≤ s) (hs' : s < 2 ^ 64) :
    calcOutDim idim fdim s = (idim - fdim) / s.toNat + 1 := by
  have e1 : mwSub idim fdim = idim - fdim := by
    unfold mwSub
    omega
  have e2 : (s % (2 ^ 64 : Int)).toNat = s.toNat := by omega
  have e3 : (idim - fdim) / s.toNat ≤ idim - fdim := Nat.div_le_self _ _
  have e4 : (idim - fdim) / s.toNat + 1 < 2 ^ 64 := by omega
  unfold calcOutDim
  rw [e1, e2, Nat.mod_eq_of_lt e4]

/-- C2: under the validation preconditions the resolved output shape is
`out_dims[i] = ⌊(in_dims[i] - kernel_dims[i]) / stride[i]⌋ + 1` on each of
the three convolved axes, and the pass-through (4th) axis extent of the
output equals that of the input. -/
theorem C2_output_shape (image_dims filter_dims : Dims4) (step : Steps3)
    (hf0 : 1 ≤ filter_dims.d0) (h0 : filter_dims.d0 ≤ image_dims.d0)
    (hi0 : image_dims.d0 < 2 ^ 64) (hs0 : 1 ≤ step.s0) (hs0' : step.s0 < 2 ^ 64)
    (hf1 : 1 ≤ filter_dims.d1) (h1 : filter_dims.d1 ≤ image_dims.d1)
    (hi1 : image_dims.d1 < 2 ^ 64) (hs1 : 1 ≤ step.s1) (hs1' : step.s1 < 2 ^ 64)
    (hf2 : 1 ≤ filter_dims.d2) (h2 : filter_dims.d2 ≤ image_dims.d2)
    (hi2 : image_dims.d2 < 2 ^ 64) (hs2 : 1 ≤ step.s2) (hs2' : step.s2 < 2 ^ 64) :
    calculateOutputDimensions image_dims filter_dims step =
      { d0 := (image_dims.d0 - filter_dims.d0) / step.s0.toNat + 1
        d1 := (image_dims.d1 - filter_dims.d1) / step.s1.toNat + 1
        d2 := (image_dims.d2 - filter_dims.d2) / step.s2.toNat + 1
        d3 := image_dims.d3 } := by
  unfold calculateOutputDimensions
  rw [calcOutDim_eq _ _ _ hf0 h0 hi0 hs0 hs0', calcOutDim_eq _ _ _ hf1 h1 hi1 hs1 hs1',
    calcOutDim_eq _ _ _ hf2 h2 hi2 hs2 hs2']

/-- Witness for C2 at a concrete input: image extents (5,4,3,7), kernel
extents (2,2,1,1), strides (2,1,1). -/
theorem C2_output_shape_witness :
    calculateOutputDimensions ⟨5, 4, 3, 7⟩ ⟨2, 2, 1, 1⟩ ⟨2, 1, 1⟩ =
      { d0 := (5 - 2) / (2 : Int).toNat + 1
        d1 := (4 - 2) / (1 : Int).toNat + 1
        d2 := (3 - 1) / (1 : Int).toNat + 1
        d3 := 7 } :=
  C2_output_shape ⟨5, 4, 3, 7⟩ ⟨2, 2, 1, 1⟩ ⟨2, 1, 1⟩ (by decide) (by decide) (by decide)
    (by decide) (by decide) (by decide) (by decide) (by decide) (by decide) (by decide)
    (by decide) (by decide) (by decide) (by decide) (by decide)

/-- C8: for fixed input and kernel extents with `kernel ≤ input`, the output
extent on an axis as a function of the stride `s ≥ 1` equals
`⌊(in - kernel) / s⌋ + 1`, and it is antitone in the stride: `s1 ≤ s2`
implies the extent at `s2` is at most the extent at `s1`. -/
theorem C8_output_extent_antitone (n k : Nat) (s1 s2 : Int)
    (hk1 : 1 ≤ k) (hkn : k ≤ n) (hn : n < 2 ^ 64)
    (hs1 : 1 ≤ s1) (hs12 : s1 ≤ s2) (hs2 : s2 < 2 ^ 64) :
    calcOutDim n k s2 = (n - k) / s2.toNat + 1 ∧ calcOutDim n k s2 ≤ calcOutDim n k s1 := by
  have e2 := calcOutDim_eq n k s2 hk1 hkn hn (hs1.trans hs12) hs2
  have e1 := calcOutDim_eq n k s1 hk1 hkn hn hs1 (lt_of_le_of_lt hs12 hs2)
  refine ⟨e2, ?_⟩
  rw [e1, e2]
  have hmono : (n - k) / s2.toNat ≤ (n - k) / s1.toNat :=
    Nat.div_le_div_left (by omega) (by omega)
  omega

/-- Witness for C8 at a concrete input: extents 10 and 3, strides 2 ≤ 3. -/
theorem C8_output_extent_antitone_witness :
    calcOutDim 10 3 3 = (10 - 3) / (3 : Int).toNat + 1 ∧ calcOutDim 10 3 3 ≤ calcOutDim 10 3 2 :=
  C8_output_extent_antitone 10 3 2 3 (by decide) (by decide) (by decide) (by decide)
    (by decide) (by decide)

/-- C4 (code-defect exhibit): for a 1×1 image and a 3×1 filter — a kernel
strictly larger than the input on axis 0 — `validateInputs` succeeds: the
code contains no kernel-size check at all, so no `KernelTooLarge` rejection
happens. `calculateOutputDimensions` then underflows in `mwSize` arithmetic
to `2^64 - 1` on axis 0 (the size `mxCreateNumericArray` is asked to
allocate), while `valid_filter`'s own `int` computation of the same extent
is `-1`: the two shape computations of the program contradict each other
instead of the call failing validation. -/
theorem C4_no_kernel_size_validation :
    validateInputs [⟨true, false, false, [1, 1], [0]⟩,
        ⟨true, false, false, [3, 1], [0, 0, 0]⟩] =
      .ok (⟨1, 1, 1, 1⟩, ⟨3, 1, 1, 1⟩, ⟨1, 1, 1⟩) ∧
    calculateOutputDimensions ⟨1, 1, 1, 1⟩ ⟨3, 1, 1, 1⟩ ⟨1, 1, 1⟩ =
      ⟨2 ^ 64 - 1, 1, 1, 1⟩ ∧
    intResDim 1 3 1 = -1 := by
  refine ⟨rfl, by decide, by decide⟩

/-- C5 (code-defect exhibit): for a step vector `[0, 1, 1]` — a stride less
than 1 — `validateInputs` succeeds with the zero step: the code contains no
stride-positivity check, so no `InvalidStride` rejection happens and the
zero stride flows into `calculateOutputDimensions`'s division. -/
theorem C5_no_stride_validation :
    validateInputs [⟨true, false, false, [3, 3], [1, 2, 3, 4, 5, 6, 7, 8, 9]⟩,
        ⟨true, false, false, [2, 2], [1, 1, 1, 1]⟩,
        ⟨true, false, false, [1, 3], [0, 1, 1]⟩] =
      .ok (⟨3, 3, 1, 1⟩, ⟨2, 2, 1, 1⟩, ⟨0, 1, 1⟩) := rfl

/-- Concrete evaluation of the worked example: 3×3 column-major image
`[1..9]`, 2×2 all-ones kernel, stride `[1,1]` (the third axis has extent 1
throughout). The output buffer is zero-filled by the caller. -/
theorem valid_filter_example_eval :
    valid_filter [1, 2, 3, 4, 5, 6, 7, 8, 9] 3 3 1 [1, 1, 1, 1] 2 2 1 1 1 1
      (List.replicate 4 0) = [12, 16, 24, 28] := by
  simp only [valid_filter, writeList,
    show (intResDim 3 2 1).toNat = 2 by decide, show (intResDim 1 1 1).toNat = 1 by decide]
  norm_num [innerSum, linIdx, List.range_succ, List.replicate, List.set_cons_zero,
    List.set_cons_succ]

/-- C6 counterexample: on the worked example the flat column-major output is
not `[12, 24, 16, 28]` as the claim states. -/
theorem C6_flat_output_counterexample :
    valid_filter [1, 2, 3, 4, 5, 6, 7, 8, 9] 3 3 1 [1, 1, 1, 1] 2 2 1 1 1 1
      (List.replicate 4 0) ≠ [12, 24, 16, 28] := by
  rw [valid_filter_example_eval]
  simp only [ne_eq, List.cons.injEq, not_and]
  intro _ h
  exact absurd h (by norm_num)

/-- C6 (amended): on the worked example the flat column-major output is
`[12, 16, 24, 28]`, i.e. `out(0,0) = 12`, `out(1,0) = 16`, `out(0,1) = 24`,
`out(1,1) = 28` — the per-coordinate values the claim itself lists. -/
theorem C6_concrete_example :
    valid_filter [1, 2, 3, 4, 5, 6, 7, 8, 9] 3 3 1 [1, 1, 1, 1] 2 2 1 1 1 1
        (List.replicate 4 0) = [12, 16, 24, 28] ∧
    (valid_filter [1, 2, 3, 4, 5, 6, 7, 8, 9] 3 3 1 [1, 1, 1, 1] 2 2 1 1 1 1
        (List.replicate 4 0))[linIdx 0 0 0 2 2]? = some 12 ∧
    (valid_filter [1, 2, 3, 4, 5, 6, 7, 8, 9] 3 3 1 [1, 1, 1, 1] 2 2 1 1 1 1
        (List.replicate 4 0))[linIdx 1 0 0 2 2]? = some 16 ∧
    (valid_filter [1, 2, 3, 4, 5, 6, 7, 8, 9] 3 3 1 [1, 1, 1, 1] 2 2 1 1 1 1
        (List.replicate 4 0))[linIdx 0 1 0 2 2]? = some 24 ∧
    (valid_filter [1, 2, 3, 4, 5, 6, 7, 8, 9] 3 3 1 [1, 1, 1, 1] 2 2 1 1 1 1
        (List.replicate 4 0))[linIdx 1 1 0 2 2]? = some 28 := by
  rw [valid_filter_example_eval]
  exact ⟨rfl, rfl, rfl, rfl, rfl⟩

/-- C3 (code-defect exhibit): a 1×1×1×2 image `[5, 7]` (pass-through extent
`k = 2`), identity 1×1 kernel, default stride. The mexFunction pipeline
allocates two output slices (`result_dims[3] = 2`) but
`performValidCorrelation` calls `valid_filter` once over the first three
axes only, so the produced output is `[5, 0]`: slice 0 is correlated, slice
1 keeps its `mxCreateNumericArray` zero fill. Correlating the second input
slice `[7]` in isolation yields `[7]`, not `0`. -/
theorem C3_pass_through_slices_not_computed :
    validCorrDn3_mex [⟨true, false, false, [1, 1, 1, 2], [5, 7]⟩,
        ⟨true, false, false, [1, 1], [1]⟩] = .ok [5, 0] ∧
    valid_filter [7] 1 1 1 [1] 1 1 1 1 1 1 [0] = [7] ∧
    (5 : ℚ) ≠ 7 := by
  refine ⟨?_, ?_, by norm_num⟩
  · simp only [validCorrDn3_mex, validateInputs, performValidCorrelation]
    norm_num [fillDims, calculateOutputDimensions, calcOutDim, mwSub]
    simp only [valid_filter, writeList, show (intResDim 1 1 1).toNat = 1 by decide]
    norm_num [innerSum, linIdx, List.range_succ, List.replicate, List.set_cons_zero,
      List.set_cons_succ]
  · simp only [valid_filter, writeList, show (intResDim 1 1 1).toNat = 1 by decide]
    norm_num [innerSum, linIdx, List.range_succ, List.set_cons_zero, List.set_cons_succ]

theorem foldl_set_gen_length (idx : Nat → Nat) (f : Nat → ℚ) (l : List Nat) (m : List ℚ) :
    (l.foldl (fun acc i => acc.set (idx i) (f i)) m).length = m.length := by
  induction l generalizing m with
  | nil => rfl
  | cons a l ih => rw [List.foldl_cons, ih (m.set (idx a) (f a)), List.length_set]

theorem foldl_set_range_getElem (vals : List ℚ) :
    ∀ (n s : Nat) (m : List ℚ), n ≤ vals.length → s + n ≤ m.length → ∀ j : Nat,
      ((List.range n).foldl (fun acc i => acc.set (s + i) (vals.getD i 0)) m)[j]? =
        if s ≤ j ∧ j < s + n then vals[j - s]? else m[j]? := by
  intro n
  induction n with
  | zero =>
    intro s m _ _ j
    simp only [List.range_zero, List.foldl_nil]
    rw [if_neg (by omega)]
  | succ n ih =>
    intro s m hn hm j
    rw [List.range_succ, List.foldl_append]
    simp only [List.foldl_cons, List.foldl_nil]
    by_cases hj : j = s + n
    · subst hj
      rw [List.getElem?_set_self (by rw [foldl_set_gen_length]; omega)]
      rw [if_pos (by omega), show s + n - s = n by omega]
      rw [List.getD_eq_getElem?_getD, List.getElem?_eq_getElem (by omega), Option.getD_some]
    · rw [List.getElem?_set_ne (by omega : s + n ≠ j)]
      rw [ih s m (by omega) (by omega) j]
      by_cases hsj : s ≤ j ∧ j < s + n
      · rw [if_pos hsj, if_pos (by omega)]
      · rw [if_neg hsj, if_neg (by omega)]

/-- C9: `destructiveMatrixWriteAtIndices` treats the start scalar as a
truncated-to-integer 0-based offset; it errors exactly when
`startIndex ≥ size(target)` or `startIndex + count(newValues) > size(target)`
(the check runs before any store, so an erroring call modifies nothing), and
otherwise it overwrites exactly
`target[startIndex .. startIndex + count - 1]` with the elements of
`newValues` in order, leaving every other element unchanged. -/
theorem C9_destructive_write_bounds (mtx newValues : List ℚ) (q : ℚ) (hq0 : 0 ≤ q) :
    ((∃ e, destructiveMatrixWriteAtIndices mtx newValues q = .error e) ↔
      ((ratTrunc q).toNat ≥ mtx.length ∨
        (ratTrunc q).toNat + newValues.length > mtx.length)) ∧
    (∀ out, destructiveMatrixWriteAtIndices mtx newValues q = .ok out →
      ∀ j : Nat, out[j]? =
        if (ratTrunc q).toNat ≤ j ∧ j < (ratTrunc q).toNat + newValues.length then
          newValues[j - (ratTrunc q).toNat]? else mtx[j]?) := by
  simp only [destructiveMatrixWriteAtIndices]
  by_cases hc : (ratTrunc q).toNat ≥ mtx.length ∨
      (ratTrunc q).toNat + newValues.length > mtx.length
  · rw [if_pos hc]
    refine ⟨⟨fun _ => hc, fun _ => ⟨_, rfl⟩⟩, fun out h => absurd h (by simp)⟩
  · rw [if_neg hc]
    constructor
    · constructor
      · rintro ⟨e, he⟩
        exact absurd he (by simp)
      · intro h
        exact absurd h hc
    · intro out h j
      have hout : (List.range newValues.length).foldl
          (fun m i => m.set ((ratTrunc q).toNat + i) (newValues.getD i 0)) mtx = out := by
        injection h
      rw [← hout]
      exact foldl_set_range_getElem newValues newValues.length (ratTrunc q).toNat mtx
        (le_refl _) (by omega) j

/-- Witness for C9 at a concrete input: target `[1,2,3,4,5]`, new values
`[10,20]`, start scalar `2.0`. -/
theorem C9_destructive_write_bounds_witness :
    ((∃ e, destructiveMatrixWriteAtIndices [1, 2, 3, 4, 5] [10, 20] 2 = .error e) ↔
      ((ratTrunc 2).toNat ≥ ([1, 2, 3, 4, 5] : List ℚ).length ∨
        (ratTrunc 2).toNat + ([10, 20] : List ℚ).length > ([1, 2, 3, 4, 5] : List ℚ).length)) ∧
    (∀ out, destructiveMatrixWriteAtIndices [1, 2, 3, 4, 5] [10, 20] 2 = .ok out →
      ∀ j : Nat, out[j]? =
        if (ratTrunc 2).toNat ≤ j ∧ j < (ratTrunc 2).toNat + ([10, 20] : List ℚ).length then
          ([10, 20] : List ℚ)[j - (ratTrunc 2).toNat]? else ([1, 2, 3, 4, 5] : List ℚ)[j]?) :=
  C9_destructive_write_bounds [1, 2, 3, 4, 5] [10, 20] 2 (by norm_num)

/-- C10: in `internal_pointop`, for every increment less than or equal to
zero (not only zero), every element of the result equals the first
lookup-table entry, regardless of the image values, the origin, and the
remaining table entries; the interpolation path runs only for a strictly
positive increment. -/
theorem C10_pointop_nonpositive_increment (im lut : List ℚ) (origin increment : ℚ)
    (hinc : increment ≤ 0) (hlut : 0 < lut.length) :
    internal_pointop im lut origin increment = List.replicate im.length (lut.getD 0 0) ∧
    lut[0]? = some (lut.getD 0 0) := by
  constructor
  · unfold internal_pointop
    rw [if_neg (not_lt.mpr hinc)]
    simp
  · rw [List.getD_eq_getElem?_getD, List.getElem?_eq_getElem hlut, Option.getD_some]

/-- Witness for C10 at a concrete input: image `[10, 20]`, lookup table
`[3, 4]`, origin `0`, increment `-1`. -/
theorem C10_pointop_nonpositive_increment_witness :
    internal_pointop [10, 20] [3, 4] 0 (-1) =
      List.replicate ([10, 20] : List ℚ).length (([3, 4] : List ℚ).getD 0 0) ∧
    ([3, 4] : List ℚ)[0]? = some (([3, 4] : List ℚ).getD 0 0) :=
  C10_pointop_nonpositive_increment [10, 20] [3, 4] 0 (-1) (by norm_num) (by decide)
